import Mathlib

/-!
Verification development for the Synq DBT-44 Companion module
(`src/index.js`).  The module's pure logic — OSC stream reassembly,
path/variable mapping, value formatting and the gain/mute
read-modify-write actions — is shallowly embedded below.  JavaScript
numbers are modelled as `ℚ` (all values arising in the modelled paths
are exact decimals well inside double precision; NaN is modelled as
`Option.none` where it can arise).  Byte buffers are `List ℕ`.

The `osc` npm library (`osc.readPacket` / `osc.writePacket`) is an
external dependency, not part of this repository; where its behaviour
matters it is abstracted as an oracle pair `readPk : List ℕ → Option
OscPacket`, `writeLen : OscPacket → ℕ` (a throwing `readPacket` is
`none`).
-/

namespace SynqDbt44

attribute [local semireducible] Rat.add Rat.mul Rat.inv Rat.sub

/-! ## JavaScript primitive models -/

/-- Whitespace recognised by JavaScript `String.prototype.trim`
(ASCII subset; Unicode spaces do not occur in the modelled data). -/
def isJsWhitespace (c : Char) : Bool :=
  c = ' ' || c = '\t' || c = '\n' || c = '\r' || c = '\x0b' || c = '\x0c'

/-- Model of JavaScript `s.trim()`. -/
def jsTrim (s : String) : String :=
  String.mk (((s.toList.dropWhile isJsWhitespace).reverse.dropWhile isJsWhitespace).reverse)

/-- Value of a list of decimal digit characters. -/
def digitsToNat (l : List Char) : ℕ :=
  l.foldl (fun a c => 10 * a + (c.toNat - '0'.toNat)) 0

/-- Core of the ECMAScript decimal-literal parser shared by `parseFloat`
and `Number(string)`: optional sign, digits with an optional fraction
(at least one digit overall), and an optional exponent part that is
consumed only when at least one exponent digit follows.  Returns the
parsed value and the unconsumed remainder.  Hexadecimal/`Infinity`
literals do not occur in the modelled data and are out of scope. -/
def parseDecimalCore (l : List Char) : Option (ℚ × List Char) :=
  let signAndRest : ℚ × List Char :=
    match l with
    | '-' :: r => (-1, r)
    | '+' :: r => (1, r)
    | _ => (1, l)
  let sign := signAndRest.1
  let l1 := signAndRest.2
  let intDigits := l1.takeWhile Char.isDigit
  let l2 := l1.dropWhile Char.isDigit
  let fracAndRest : List Char × List Char :=
    match l2 with
    | '.' :: r => (r.takeWhile Char.isDigit, r.dropWhile Char.isDigit)
    | _ => ([], l2)
  let fracDigits := fracAndRest.1
  let l3 := fracAndRest.2
  if intDigits.isEmpty && fracDigits.isEmpty then none
  else
    let mant : ℚ :=
      sign * ((digitsToNat intDigits : ℚ) +
        (digitsToNat fracDigits : ℚ) / (10 : ℚ) ^ fracDigits.length)
    match l3 with
    | c :: r =>
      if c = 'e' || c = 'E' then
        let esignAndRest : ℤ × List Char :=
          match r with
          | '-' :: rr => (-1, rr)
          | '+' :: rr => (1, rr)
          | _ => (1, r)
        let eDigits := esignAndRest.2.takeWhile Char.isDigit
        if eDigits.isEmpty then some (mant, l3)
        else
          some (mant * (10 : ℚ) ^ (esignAndRest.1 * (digitsToNat eDigits : ℤ)),
            esignAndRest.2.dropWhile Char.isDigit)
      else some (mant, l3)
    | [] => some (mant, [])

/-- Model of JavaScript `parseFloat(s)`: skip leading whitespace, parse the
longest numeric prefix; `none` is NaN. -/
def jsParseFloat (s : String) : Option ℚ :=
  (parseDecimalCore (s.toList.dropWhile isJsWhitespace)).map (·.1)

/-- Model of JavaScript `Number(s)` string-to-number coercion: trims both
ends; the empty string is `0`; otherwise the whole remainder must be a
numeric literal, else NaN (`none`). -/
def jsNumberOfString (s : String) : Option ℚ :=
  let t := jsTrim s
  if t = "" then some 0
  else
    match parseDecimalCore t.toList with
    | some (q, rest) => if rest.isEmpty then some q else none
    | none => none

/-- The JavaScript values that flow through the module's state store and
value-handling code. -/
inductive JSVal where
  | bool (b : Bool)
  | num (q : ℚ)
  | str (s : String)
  | undef
deriving DecidableEq

/-- Model of JavaScript `Number(v)` coercion on the modelled values
(`none` is NaN). -/
def jsToNumber : JSVal → Option ℚ
  | .bool true => some 1
  | .bool false => some 0
  | .num q => some q
  | .str s => jsNumberOfString s
  | .undef => none

/-- Model of `parseFloat(v)` for a non-string argument: `parseFloat`
first coerces to string.  For every finite double `x`,
`parseFloat(String(x)) = x`, so the numeric case is the identity;
`"true"`, `"false"` and `"undefined"` all parse as NaN. -/
def parseFloatVal : JSVal → Option ℚ
  | .str s => jsParseFloat s
  | .num q => some q
  | .bool _ => none
  | .undef => none

/-- Model of JavaScript `Math.round` on finite values: round half
toward positive infinity. -/
def jsRound (q : ℚ) : ℤ := ⌊q + 1 / 2⌋

/-- Decimal rendering of `k / 10` with exactly one digit after the
point — the result of `(Math.round(num * 10) / 10).toFixed(1)`. -/
def renderFixed1 (k : ℤ) : String :=
  (if k < 0 then "-" else "") ++ toString (k.natAbs / 10) ++ "." ++ toString (k.natAbs % 10)

/-- Model of JavaScript `String(v)` for the values reaching the final
branch of `formatSyncValue` (non-numeric strings and `undefined`; the
numeric case is unreachable there because every finite number is taken
by the `Number.isFinite` branch, and it is rendered here only for
totality). -/
def jsToStr : JSVal → String
  | .bool true => "true"
  | .bool false => "false"
  | .str s => s
  | .undef => "undefined"
  | .num q => renderFixed1 (jsRound (q * 10))

/-! ## `formatSyncValue` (src/index.js lines 204–218) -/

/-- Embedding of `formatSyncValue(value)`: booleans to `"1"`/`"0"`;
values coercing to the finite number 0 or 1 to `"0"`/`"1"`
(`String(num)`); other finite numbers to one decimal place
(`(Math.round(num*10)/10).toFixed(1)`); everything else `String(value)`. -/
def formatSyncValue (v : JSVal) : String :=
  match v with
  | .bool true => "1"
  | .bool false => "0"
  | v =>
    match jsToNumber v with
    | some q =>
      if q = 0 ∨ q = 1 then (if q = 0 then "0" else "1")
      else renderFixed1 (jsRound (q * 10))
    | none => jsToStr v

/-! ## State store (JavaScript objects as insertion-ordered association lists) -/

/-- Property read `obj[key]` (`none` is `undefined`). -/
def assocGet {α : Type} : List (String × α) → String → Option α
  | [], _ => none
  | (k, v) :: rest, key => if k = key then some v else assocGet rest key

/-- Property write `obj[key] = v`: overwrite in place, else append
(JavaScript objects preserve insertion order). -/
def assocSet {α : Type} : List (String × α) → String → α → List (String × α)
  | [], key, v => [(key, v)]
  | (k, w) :: rest, key, v =>
    if k = key then (k, v) :: rest else (k, w) :: assocSet rest key v

/-- Property delete `delete obj[key]`. -/
def assocDelete {α : Type} (l : List (String × α)) (key : String) : List (String × α) :=
  l.filter (fun p => p.1 ≠ key)

/-- The mutable per-instance fields touched by the modelled operations:
`syncState` (variable id → formatted value), `syncVariableDefs`
(registration order of variable ids), `savedMatrixGain` (crosspoint key →
pre-mute gain), and the connection status (`true` after
`updateStatus('ok', …)`). -/
structure InstState where
  syncState : List (String × JSVal)
  syncVariableDefs : List String
  savedMatrixGain : List (String × ℚ)
  connectionOk : Bool

/-- Embedding of `storeSyncValue(variableId, value)` (src/index.js lines
221–227): a falsy id is ignored; otherwise the formatted value is stored
and the id registered on first sight. -/
def storeSyncValue (st : InstState) (variableId : String) (value : JSVal) : InstState :=
  if variableId = "" then st
  else
    { st with
      syncState := assocSet st.syncState variableId (.str (formatSyncValue value))
      syncVariableDefs :=
        if st.syncVariableDefs.contains variableId then st.syncVariableDefs
        else st.syncVariableDefs ++ [variableId] }

/-! ## Address mapping (src/index.js lines 34–39 and 118–126) -/

/-- Map `'/'` to `'_'`, as in `.replace(/\x2f/g, '_')`. -/
def slashToUnderscore (c : Char) : Char := if c = '/' then '_' else c

/-- Drop one leading `'/'`, as in `.replace(/^\x2f/, '')`. -/
def dropLeadingSlash : List Char → List Char
  | '/' :: r => r
  | l => l

/-- Embedding of `oscPath(pathWithoutName)`: `null` when the trimmed
device name is empty, else the path (slash-prefixed if needed) with
`/<device_name>` appended. -/
def oscPath (deviceName pathWithoutName : String) : Option String :=
  let name := jsTrim deviceName
  if name = "" then none
  else
    let p := pathWithoutName.toList
    let base : List Char := if p.head? = some '/' then p else '/' :: p
    some (String.mk (base ++ '/' :: name.toList))

/-- Embedding of `pathToVariableId(path)`: `null` for a falsy path;
strip a trailing `/<device_name>` when present, strip one leading slash,
replace the remaining slashes with underscores. -/
def pathToVariableId (deviceName path : String) : Option String :=
  if path = "" then none
  else
    let name := (jsTrim deviceName).toList
    let p := path.toList
    let withoutName : List Char :=
      if !name.isEmpty && ('/' :: name).isSuffixOf p then
        p.take (p.length - (name.length + 1))
      else p
    some (String.mk ((dropLeadingSlash withoutName).map slashToUnderscore))

/-! ## Action keys -/

def gainInputKey (i o : ℕ) : String :=
  "gain_input_" ++ toString i ++ "_" ++ toString o

def gainOutputKey (o : ℕ) : String := "gain_output_" ++ toString o

def muteInputKey (i : ℕ) : String := "mute_input_" ++ toString i

def muteOutputKey (o : ℕ) : String := "mute_output_" ++ toString o

/-- The key of `savedMatrixGain`: `` `${inIdx}_${outIdx}` ``. -/
def savedKeyOf (i o : ℕ) : String := toString i ++ "_" ++ toString o

/-! ## Gain and mute actions (src/index.js lines 630–808) -/

/-- The step choice of `step_input_gain` / `step_output_gain`: preset
`'3'`, preset `'-3'`, or `'custom'` with the custom amount.  (`Number('3')
= 3`, `Number('-3') = -3`; a non-numeric custom amount is coerced to `0`
by `|| 0` and is represented here by the amount `0`.) -/
inductive StepChoice where
  | plus3
  | minus3
  | custom (amount : ℚ)

def stepValue : StepChoice → ℚ
  | .plus3 => 3
  | .minus3 => -3
  | .custom a => a

/-- Model of `parseFloat(x) || 0`: NaN (and `0` itself) coerce to `0`. -/
def parseFloatOr0 (v : JSVal) : ℚ := (parseFloatVal v).getD 0

/-- Embedding of the `step_input_gain` callback (src/index.js lines
658–671): read the stored gain (default 0), add the step, clamp with
`Math.max(-120, Math.min(10, …))`, send and store.  Returns the new
state and the value sent. -/
def stepInputGain (st : InstState) (i o : ℕ) (choice : StepChoice) : InstState × ℚ :=
  let key := gainInputKey i o
  let current := parseFloatOr0 ((assocGet st.syncState key).getD .undef)
  let step := stepValue choice
  let value := max (-120) (min 10 (current + step))
  (storeSyncValue st key (.num value), value)

/-- Embedding of the `step_output_gain` callback (src/index.js lines
700–712). -/
def stepOutputGain (st : InstState) (o : ℕ) (choice : StepChoice) : InstState × ℚ :=
  let key := gainOutputKey o
  let current := parseFloatOr0 ((assocGet st.syncState key).getD .undef)
  let step := stepValue choice
  let value := max (-120) (min 10 (current + step))
  (storeSyncValue st key (.num value), value)

/-- Crosspoint mute test `isMuted = !isNaN(current) && current <= -120`. -/
def crosspointMuted (v : JSVal) : Bool :=
  match parseFloatVal v with
  | some c => decide (c ≤ -120)
  | none => false

/-- Embedding of the `matrix_point_mute_toggle` callback (src/index.js
lines 720–741).  Returns the new state and the gain value sent. -/
def matrixPointMuteToggle (st : InstState) (i o : ℕ) : InstState × ℚ :=
  let key := gainInputKey i o
  let savedKey := savedKeyOf i o
  let current := parseFloatVal ((assocGet st.syncState key).getD .undef)
  if crosspointMuted ((assocGet st.syncState key).getD .undef) then
    let restore := (assocGet st.savedMatrixGain savedKey).getD 0
    let st1 := { st with savedMatrixGain := assocDelete st.savedMatrixGain savedKey }
    (storeSyncValue st1 key (.num restore), restore)
  else
    let st1 := { st with savedMatrixGain := assocSet st.savedMatrixGain savedKey (current.getD 0) }
    (storeSyncValue st1 key (.num (-120)), -120)

/-- The tolerant mute parse shared by the two mute-toggle callbacks (and
the mute feedbacks): `!isNaN(parseFloat(v)) ? parseFloat(v) !== 0 :
(v === '1' || v === 1 || v === true || v === 'true')`. -/
def parsedMuted (v : JSVal) : Bool :=
  match parseFloatVal v with
  | some n => decide (n ≠ 0)
  | none => v = .str "1" || v = .num 1 || v = .bool true || v = .str "true"

/-- The mute option of `set_input_mute` / `set_output_mute`:
`false` (Unmute), `true` (Mute) or `'toggle'`. -/
inductive MuteChoice where
  | unmute
  | mute
  | toggle

/-- Embedding of the `set_input_mute` callback (src/index.js lines
759–774).  Returns the new state and the boolean sent (`T`/`F` tag). -/
def setInputMute (st : InstState) (i : ℕ) (choice : MuteChoice) : InstState × Bool :=
  let key := muteInputKey i
  let mute :=
    match choice with
    | .mute => true
    | .unmute => false
    | .toggle => !(parsedMuted ((assocGet st.syncState key).getD .undef))
  (storeSyncValue st key (.num (if mute then 1 else 0)), mute)

/-- Embedding of the `set_output_mute` callback (src/index.js lines
792–807). -/
def setOutputMute (st : InstState) (o : ℕ) (choice : MuteChoice) : InstState × Bool :=
  let key := muteOutputKey o
  let mute :=
    match choice with
    | .mute => true
    | .unmute => false
    | .toggle => !(parsedMuted ((assocGet st.syncState key).getD .undef))
  (storeSyncValue st key (.num (if mute then 1 else 0)), mute)

/-! ## OSC packets and the stream reassembler
(src/index.js lines 270–341) -/

/-- A decoded OSC argument as it appears in a packet with
`metadata: true`: boolean tags `T`/`F` carry no payload, `f` carries a
float value. -/
inductive OscArg where
  | T
  | F
  | f (v : ℚ)
deriving DecidableEq

/-- A decoded OSC message: address plus arguments. -/
structure OscMessage where
  address : String
  args : List OscArg
deriving DecidableEq

/-- A decoded OSC packet: a single message (`packet.address` set) or a
one-level bundle (`packet.packets`). -/
inductive OscPacket where
  | msg (m : OscMessage)
  | bundle (ps : List OscMessage)
deriving DecidableEq

/-- Embedding of `getCompleteMessageLength(buffer)`: the length of the
re-encoded first packet on successful standard decode, else
`buffer.length + 1`.  The standard codec (`osc.readPacket` /
`osc.writePacket`, an external npm dependency) is abstracted as the
oracle pair `readPk` (a throwing `readPacket` is `none`) and `writeLen`
(the byte length of `writePacket`). -/
def getCompleteMessageLength (readPk : List ℕ → Option OscPacket)
    (writeLen : OscPacket → ℕ) (buffer : List ℕ) : ℕ :=
  match readPk buffer with
  | some packet => writeLen packet
  | none => buffer.length + 1

/-- Character class `[\x20-\x7e]` of the printable-path regex. -/
def printableChar (c : Char) : Bool := 0x20 ≤ c.toNat && c.toNat ≤ 0x7e

/-- The full-string test of `/^\x2f[\x20-\x7e]+$/`: first character is
`'/'`, total length at least 2, every later character printable ASCII. -/
def pathOnlyRegexOk (l : List Char) : Bool :=
  l.head? = some '/' && decide (2 ≤ l.length) && l.tail.all printableChar

/-- Rounding up to a 4-byte boundary, the spec's `ceil4`; the source's
`(x + 3) & ~3` computes this for the values in range. -/
def ceil4 (m : ℕ) : ℕ := 4 * ((m + 3) / 4)

/-- Embedding of `parsePathOnlyOsc(buffer)` (src/index.js lines
283–293): recognise the device's non-standard path-only frames.  Bytes
are `ℕ` (< 256); `buffer.toString('utf8', 0, nullIdx)` is modelled as a
per-byte `Char.ofNat` decode, which agrees with UTF-8 decoding on the
success path because the regex then requires every character to be
ASCII (and both decodings reject every byte ≥ 0x80).  `(x + 3) & ~3`
is written as `x + 3 - (x + 3) % 4`, which is equal for the
non-negative values in range. -/
def parsePathOnlyOsc (buffer : List ℕ) : Option (String × ℕ) :=
  if buffer.length < 2 then none
  else if buffer.head? ≠ some 0x2f then none
  else
    match buffer.findIdx? (fun b => b == 0) with
    | none => none
    | some nullIdx =>
      if nullIdx < 1 then none
      else
        let pathChars := (buffer.take nullIdx).map Char.ofNat
        if !pathOnlyRegexOk pathChars then none
        else
          let byteLength := nullIdx + 1 + 3 - (nullIdx + 1 + 3) % 4
          if byteLength > buffer.length then none
          else some (String.mk pathChars, byteLength)

/-- The `messageLength` / `packet` pair computed by one iteration of the
`parseOscIncoming` loop, including the path-only fallback (src/index.js
lines 298–320).  The same oracle stands for `osc.readPacket` with and
without `metadata: true`, since the metadata option changes the
argument representation, not decodability. -/
def iterFrame (readPk : List ℕ → Option OscPacket) (writeLen : OscPacket → ℕ)
    (buffer : List ℕ) : ℕ × Option OscPacket :=
  let messageLength := getCompleteMessageLength readPk writeLen buffer
  let packet : Option OscPacket :=
    if messageLength ≤ buffer.length then readPk (buffer.take messageLength) else none
  if packet.isNone && decide (4 ≤ buffer.length) then
    match parsePathOnlyOsc buffer with
    | some (path, bl) => (bl, some (.msg ⟨path, []⟩))
    | none => (messageLength, packet)
  else (messageLength, packet)

/-- The effective first-frame length used by the reassembly loop — the
spec's `MessageByteLength`. -/
def effectiveMessageLength (readPk : List ℕ → Option OscPacket)
    (writeLen : OscPacket → ℕ) (buffer : List ℕ) : ℕ :=
  (iterFrame readPk writeLen buffer).1

/-- Outcome of one iteration of the `parseOscIncoming` while-loop
(src/index.js lines 297–339). -/
inductive IterStep where
  /-- `break`: the loop ends with the buffer unchanged. -/
  | brk
  /-- a frame was sliced off and the decoded packet dispatched;
  `rest` is the remaining buffer. -/
  | handled (p : OscPacket) (rest : List ℕ)
  /-- a frame was sliced off but failed to decode (logged and skipped);
  `rest` is the remaining buffer. -/
  | unparsedDropped (rest : List ℕ)
deriving DecidableEq

/-- One iteration of the `parseOscIncoming` loop body. -/
def parseIterOnce (readPk : List ℕ → Option OscPacket) (writeLen : OscPacket → ℕ)
    (buffer : List ℕ) : IterStep :=
  let fr := iterFrame readPk writeLen buffer
  if buffer.length < fr.1 then .brk
  else
    match fr.2 with
    | some p => .handled p (buffer.drop fr.1)
    | none => .unparsedDropped (buffer.drop fr.1)

/-- Modelled from the spec: `MessageByteLength(bytes)` as §4.1 words it —
the re-encoded length of the first complete frame via standard decode;
on standard-decode failure, the path-only frame length; when both fail,
`buffer.length + 1`.  (The corresponding source computation is spread
over `getCompleteMessageLength` and the path-only fallback inside
`parseOscIncoming`; the standard codec itself is the external `osc`
npm dependency, abstracted by the oracles.) -/
def messageByteLengthSpec (readPk : List ℕ → Option OscPacket)
    (writeLen : OscPacket → ℕ) (buffer : List ℕ) : ℕ :=
  match readPk buffer with
  | some packet => writeLen packet
  | none =>
    match parsePathOnlyOsc buffer with
    | some (_, bl) => bl
    | none => buffer.length + 1

/-! ## Inbound message handling (src/index.js lines 344–377) -/

/-- The value stored for an inbound message: first argument (`T` → true,
`F` → false, else its value), or `''` when there are no arguments. -/
def argValue : List OscArg → JSVal
  | [] => .str ""
  | a :: _ =>
    match a with
    | .T => .bool true
    | .F => .bool false
    | .f q => .num q

/-- Embedding of `handleOscMessage(packet)`: refresh the connection
status, skip `/ping` echoes, store every other message that yields a
truthy variable id.  Returns the new state and the boolean result
(`true` iff a sync-style value was stored). -/
def handleOscMessage (deviceName : String) (st : InstState) (m : OscMessage) :
    InstState × Bool :=
  let st := { st with connectionOk := true }
  let variableId := pathToVariableId deviceName m.address
  let pingPath := oscPath deviceName "/ping"
  let isPing : Bool :=
    m.address = "/ping" ||
      (match pingPath with
       | some pp => m.address = pp
       | none => false)
  match variableId with
  | some id =>
    if id ≠ "" && !isPing then (storeSyncValue st id (argValue m.args), true)
    else (st, false)
  | none => (st, false)

/-- Clamping as the spec words it: `clamp(x, lo, hi)`. -/
def clampSpec (x lo hi : ℚ) : ℚ := if x < lo then lo else if hi < x then hi else x

/-! ## Helper lemmas -/

theorem assocGet_assocSet_self {α : Type} (l : List (String × α)) (k : String) (v : α) :
    assocGet (assocSet l k v) k = some v := by
  induction l with
  | nil => simp [assocSet, assocGet]
  | cons p rest ih =>
    obtain ⟨k', w⟩ := p
    by_cases h : k' = k
    · simp [assocSet, h, assocGet]
    · simp [assocSet, h, assocGet, ih]

theorem assocGet_assocDelete_self {α : Type} (l : List (String × α)) (k : String) :
    assocGet (assocDelete l k) k = none := by
  induction l with
  | nil => rfl
  | cons p rest ih =>
    obtain ⟨k', w⟩ := p
    by_cases h : k' = k
    · simpa [assocDelete, h] using ih
    · simpa [assocDelete, h, assocGet] using ih

theorem string_ne_empty_of_length (s : String) (h : s.length ≠ 0) : s ≠ "" := by
  intro hc
  subst hc
  exact h rfl

theorem append_ne_empty_left (a b : String) (h : a ≠ "") : a ++ b ≠ "" := by
  intro hc
  apply h
  apply String.toList_inj.mp
  have hd : (a ++ b).data = ("" : String).data := congrArg String.data hc
  rw [String.data_append] at hd
  exact (List.append_eq_nil.mp hd).1

theorem gainInputKey_ne_empty (i o : ℕ) : gainInputKey i o ≠ "" := by
  unfold gainInputKey
  exact append_ne_empty_left _ _ (append_ne_empty_left _ _
    (append_ne_empty_left _ _ (by decide)))

theorem gainOutputKey_ne_empty (o : ℕ) : gainOutputKey o ≠ "" :=
  append_ne_empty_left _ _ (by decide)

theorem muteInputKey_ne_empty (i : ℕ) : muteInputKey i ≠ "" :=
  append_ne_empty_left _ _ (by decide)

theorem muteOutputKey_ne_empty (o : ℕ) : muteOutputKey o ≠ "" :=
  append_ne_empty_left _ _ (by decide)

theorem storeSyncValue_syncState (st : InstState) (id : String) (v : JSVal)
    (h : id ≠ "") :
    (storeSyncValue st id v).syncState =
      assocSet st.syncState id (.str (formatSyncValue v)) := by
  simp [storeSyncValue, h]

theorem storeSyncValue_savedMatrixGain (st : InstState) (id : String) (v : JSVal) :
    (storeSyncValue st id v).savedMatrixGain = st.savedMatrixGain := by
  unfold storeSyncValue
  split <;> rfl

theorem storeSyncValue_connectionOk (st : InstState) (id : String) (v : JSVal) :
    (storeSyncValue st id v).connectionOk = st.connectionOk := by
  unfold storeSyncValue
  split <;> rfl

theorem formatSyncValue_bit (m : Bool) :
    formatSyncValue (.num (if m then 1 else 0)) = if m then "1" else "0" := by
  cases m <;> decide

theorem maxmin_eq_clampSpec (x : ℚ) :
    max (-120) (min 10 x) = clampSpec x (-120) 10 := by
  simp only [clampSpec, max_def, min_def]
  split_ifs <;> first | rfl | linarith

theorem crosspointMuted_of_parse (v : JSVal) (c : ℚ)
    (h : parseFloatVal v = some c) (hc : c ≤ -120) : crosspointMuted v = true := by
  simp [crosspointMuted, h, hc]

theorem crosspointMuted_false_of_parse_gt (v : JSVal) (c : ℚ)
    (h : parseFloatVal v = some c) (hc : -120 < c) : crosspointMuted v = false := by
  simp only [crosspointMuted, h, decide_eq_false_iff_not]
  linarith

theorem matrixPointMuteToggle_muted (st : InstState) (i o : ℕ)
    (h : crosspointMuted ((assocGet st.syncState (gainInputKey i o)).getD .undef) = true) :
    matrixPointMuteToggle st i o =
      (storeSyncValue
        { st with savedMatrixGain := assocDelete st.savedMatrixGain (savedKeyOf i o) }
        (gainInputKey i o)
        (.num ((assocGet st.savedMatrixGain (savedKeyOf i o)).getD 0)),
       (assocGet st.savedMatrixGain (savedKeyOf i o)).getD 0) := by
  simp [matrixPointMuteToggle, h]

theorem matrixPointMuteToggle_unmuted (st : InstState) (i o : ℕ)
    (h : crosspointMuted ((assocGet st.syncState (gainInputKey i o)).getD .undef) = false) :
    matrixPointMuteToggle st i o =
      (storeSyncValue
        { st with
          savedMatrixGain := assocSet st.savedMatrixGain (savedKeyOf i o)
            ((parseFloatVal ((assocGet st.syncState (gainInputKey i o)).getD .undef)).getD 0) }
        (gainInputKey i o) (.num (-120)), -120) := by
  simp [matrixPointMuteToggle, h]

theorem matrixToggle_muted_effects (st : InstState) (i o : ℕ)
    (h : crosspointMuted ((assocGet st.syncState (gainInputKey i o)).getD .undef) = true) :
    (matrixPointMuteToggle st i o).2 =
      (assocGet st.savedMatrixGain (savedKeyOf i o)).getD 0 ∧
    (matrixPointMuteToggle st i o).1.savedMatrixGain =
      assocDelete st.savedMatrixGain (savedKeyOf i o) ∧
    assocGet (matrixPointMuteToggle st i o).1.syncState (gainInputKey i o) =
      some (.str (formatSyncValue
        (.num ((assocGet st.savedMatrixGain (savedKeyOf i o)).getD 0)))) := by
  rw [matrixPointMuteToggle_muted st i o h]
  refine ⟨rfl, ?_, ?_⟩
  · rw [storeSyncValue_savedMatrixGain]
  · rw [storeSyncValue_syncState _ _ _ (gainInputKey_ne_empty i o)]
    exact assocGet_assocSet_self _ _ _

theorem matrixToggle_unmuted_effects (st : InstState) (i o : ℕ)
    (h : crosspointMuted ((assocGet st.syncState (gainInputKey i o)).getD .undef) = false) :
    (matrixPointMuteToggle st i o).2 = -120 ∧
    (matrixPointMuteToggle st i o).1.savedMatrixGain =
      assocSet st.savedMatrixGain (savedKeyOf i o)
        ((parseFloatVal ((assocGet st.syncState (gainInputKey i o)).getD .undef)).getD 0) ∧
    assocGet (matrixPointMuteToggle st i o).1.syncState (gainInputKey i o) =
      some (.str "-120.0") := by
  rw [matrixPointMuteToggle_unmuted st i o h]
  refine ⟨rfl, ?_, ?_⟩
  · rw [storeSyncValue_savedMatrixGain]
  · rw [storeSyncValue_syncState _ _ _ (gainInputKey_ne_empty i o)]
    have : formatSyncValue (.num (-120)) = "-120.0" := by decide
    rw [this]
    exact assocGet_assocSet_self _ _ _

/-! ## C2: crosspoint mute toggle -/

/-- C2: the `matrix_point_mute_toggle` callback restores (and deletes)
the saved gain — defaulting to 0 — when the stored gain parses to a
number ≤ -120, and otherwise saves the current gain (0 when absent or
unparseable) and writes -120; hence toggling twice from an unmuted gain
`g > -120` restores exactly `g` and leaves no saved entry, and toggling
when muted with no saved entry restores 0. -/
theorem matrixMuteToggle_roundTrip :
    (∀ (st : InstState) (i o : ℕ) (c : ℚ),
      parseFloatVal ((assocGet st.syncState (gainInputKey i o)).getD .undef) = some c →
      c ≤ -120 →
      (matrixPointMuteToggle st i o).2 =
        (assocGet st.savedMatrixGain (savedKeyOf i o)).getD 0 ∧
      assocGet (matrixPointMuteToggle st i o).1.savedMatrixGain (savedKeyOf i o) = none ∧
      assocGet (matrixPointMuteToggle st i o).1.syncState (gainInputKey i o) =
        some (.str (formatSyncValue
          (.num ((assocGet st.savedMatrixGain (savedKeyOf i o)).getD 0))))) ∧
    (∀ (st : InstState) (i o : ℕ),
      crosspointMuted ((assocGet st.syncState (gainInputKey i o)).getD .undef) = false →
      (matrixPointMuteToggle st i o).2 = -120 ∧
      assocGet (matrixPointMuteToggle st i o).1.savedMatrixGain (savedKeyOf i o) =
        some ((parseFloatVal ((assocGet st.syncState (gainInputKey i o)).getD .undef)).getD 0) ∧
      assocGet (matrixPointMuteToggle st i o).1.syncState (gainInputKey i o) =
        some (.str "-120.0")) ∧
    (∀ (st : InstState) (i o : ℕ) (g : ℚ),
      parseFloatVal ((assocGet st.syncState (gainInputKey i o)).getD .undef) = some g →
      -120 < g →
      (matrixPointMuteToggle (matrixPointMuteToggle st i o).1 i o).2 = g ∧
      assocGet (matrixPointMuteToggle (matrixPointMuteToggle st i o).1 i o).1.savedMatrixGain
        (savedKeyOf i o) = none ∧
      assocGet (matrixPointMuteToggle (matrixPointMuteToggle st i o).1 i o).1.syncState
        (gainInputKey i o) = some (.str (formatSyncValue (.num g)))) ∧
    (∀ (st : InstState) (i o : ℕ) (c : ℚ),
      parseFloatVal ((assocGet st.syncState (gainInputKey i o)).getD .undef) = some c →
      c ≤ -120 →
      assocGet st.savedMatrixGain (savedKeyOf i o) = none →
      (matrixPointMuteToggle st i o).2 = 0) := by
  refine ⟨?_, ?_, ?_, ?_⟩
  · intro st i o c hparse hc
    obtain ⟨hv, hs, hsync⟩ :=
      matrixToggle_muted_effects st i o (crosspointMuted_of_parse _ _ hparse hc)
    exact ⟨hv, by rw [hs]; exact assocGet_assocDelete_self _ _, hsync⟩
  · intro st i o h
    obtain ⟨hv, hs, hsync⟩ := matrixToggle_unmuted_effects st i o h
    exact ⟨hv, by rw [hs]; exact assocGet_assocSet_self _ _ _, hsync⟩
  · intro st i o g hparse hg
    have h1 : crosspointMuted ((assocGet st.syncState (gainInputKey i o)).getD .undef) = false :=
      crosspointMuted_false_of_parse_gt _ _ hparse hg
    obtain ⟨hv, hs, hsync⟩ := matrixToggle_unmuted_effects st i o h1
    have hmut1 : crosspointMuted
        ((assocGet (matrixPointMuteToggle st i o).1.syncState (gainInputKey i o)).getD .undef)
        = true := by
      rw [hsync]
      decide
    have hsaved1 : assocGet (matrixPointMuteToggle st i o).1.savedMatrixGain (savedKeyOf i o)
        = some g := by
      rw [hs, hparse]
      simpa using assocGet_assocSet_self _ _ _
    obtain ⟨hv2, hs2, hsync2⟩ := matrixToggle_muted_effects (matrixPointMuteToggle st i o).1
      i o hmut1
    refine ⟨?_, ?_, ?_⟩
    · rw [hv2, hsaved1]
      rfl
    · rw [hs2]
      exact assocGet_assocDelete_self _ _
    · rw [hsync2, hsaved1]
      rfl
  · intro st i o c hparse hc hnone
    obtain ⟨hv, _, _⟩ :=
      matrixToggle_muted_effects st i o (crosspointMuted_of_parse _ _ hparse hc)
    rw [hv, hnone]
    rfl

/-- Witness for the hypotheses of `matrixMuteToggle_roundTrip`: the
double toggle on the spec's own example state (`gain_input_1_1 =
"-2.0"`) restores exactly -2, clears the saved entry and stores
`"-2.0"` again. -/
theorem matrixMuteToggle_roundTrip_witness :
    (matrixPointMuteToggle
      (matrixPointMuteToggle ⟨[(gainInputKey 1 1, .str "-2.0")], [], [], true⟩ 1 1).1 1 1).2
      = -2 ∧
    assocGet (matrixPointMuteToggle
      (matrixPointMuteToggle ⟨[(gainInputKey 1 1, .str "-2.0")], [], [], true⟩ 1 1).1
      1 1).1.savedMatrixGain (savedKeyOf 1 1) = none ∧
    assocGet (matrixPointMuteToggle
      (matrixPointMuteToggle ⟨[(gainInputKey 1 1, .str "-2.0")], [], [], true⟩ 1 1).1
      1 1).1.syncState (gainInputKey 1 1) = some (.str (formatSyncValue (.num (-2)))) :=
  matrixMuteToggle_roundTrip.2.2.1 ⟨[(gainInputKey 1 1, .str "-2.0")], [], [], true⟩ 1 1
    (-2) (by decide) (by norm_num)

/-! ## C3: step-gain operations -/

/-- C3: every step-gain operation (`step_input_gain` and
`step_output_gain`) sends `clamp(current + step, -120, 10)` and stores
its one-decimal formatting, where `current` is the stored gain parsed
with `parseFloat` and defaulting to 0, and `step` is `+3`, `-3` or the
custom amount; in particular stepping `"-2.0"` by `-3` yields `-5.0`,
and stepping `"-119.0"` by `-3` clamps to `-120`. -/
theorem stepGain_clamps :
    (∀ (st : InstState) (i o : ℕ) (choice : StepChoice),
      (stepInputGain st i o choice).2 =
        clampSpec (parseFloatOr0 ((assocGet st.syncState (gainInputKey i o)).getD .undef)
          + stepValue choice) (-120) 10 ∧
      assocGet (stepInputGain st i o choice).1.syncState (gainInputKey i o) =
        some (.str (formatSyncValue (.num (stepInputGain st i o choice).2)))) ∧
    (∀ (st : InstState) (o : ℕ) (choice : StepChoice),
      (stepOutputGain st o choice).2 =
        clampSpec (parseFloatOr0 ((assocGet st.syncState (gainOutputKey o)).getD .undef)
          + stepValue choice) (-120) 10 ∧
      assocGet (stepOutputGain st o choice).1.syncState (gainOutputKey o) =
        some (.str (formatSyncValue (.num (stepOutputGain st o choice).2)))) ∧
    (stepInputGain ⟨[(gainInputKey 1 1, .str "-2.0")], [], [], true⟩ 1 1 .minus3).2 = -5 ∧
    assocGet (stepInputGain ⟨[(gainInputKey 1 1, .str "-2.0")], [], [], true⟩ 1 1
      .minus3).1.syncState (gainInputKey 1 1) = some (.str "-5.0") ∧
    (stepInputGain ⟨[(gainInputKey 1 1, .str "-119.0")], [], [], true⟩ 1 1 .minus3).2 = -120 ∧
    (stepOutputGain ⟨[(gainOutputKey 2, .str "-2.0")], [], [], true⟩ 2 .minus3).2 = -5 := by
  refine ⟨?_, ?_, by decide, by decide, by decide, by decide⟩
  · intro st i o choice
    constructor
    · simp only [stepInputGain, maxmin_eq_clampSpec]
    · simp only [stepInputGain,
        storeSyncValue_syncState _ _ _ (gainInputKey_ne_empty i o),
        assocGet_assocSet_self]
  · intro st o choice
    constructor
    · simp only [stepOutputGain, maxmin_eq_clampSpec]
    · simp only [stepOutputGain,
        storeSyncValue_syncState _ _ _ (gainOutputKey_ne_empty o),
        assocGet_assocSet_self]

/-! ## C8: channel-mute toggle parse -/

/-- C8: the tolerant mute parse shared by input and output mute toggles
maps `"1"`, `"1.0"`, `1`, `true`, `"true"` to muted and `"0"`, `"0.0"`,
`0`, `false` to unmuted; in toggle mode both callbacks send and store
the logical negation of the parsed truthiness. -/
theorem muteToggle_negates :
    (parsedMuted (.str "1") = true ∧ parsedMuted (.str "1.0") = true ∧
     parsedMuted (.num 1) = true ∧ parsedMuted (.bool true) = true ∧
     parsedMuted (.str "true") = true) ∧
    (parsedMuted (.str "0") = false ∧ parsedMuted (.str "0.0") = false ∧
     parsedMuted (.num 0) = false ∧ parsedMuted (.bool false) = false) ∧
    (∀ (st : InstState) (i : ℕ),
      (setInputMute st i .toggle).2 =
        !(parsedMuted ((assocGet st.syncState (muteInputKey i)).getD .undef)) ∧
      assocGet (setInputMute st i .toggle).1.syncState (muteInputKey i) =
        some (.str (if (setInputMute st i .toggle).2 then "1" else "0"))) ∧
    (∀ (st : InstState) (o : ℕ),
      (setOutputMute st o .toggle).2 =
        !(parsedMuted ((assocGet st.syncState (muteOutputKey o)).getD .undef)) ∧
      assocGet (setOutputMute st o .toggle).1.syncState (muteOutputKey o) =
        some (.str (if (setOutputMute st o .toggle).2 then "1" else "0"))) := by
  refine ⟨by refine ⟨by decide, by decide, by decide, by decide, by decide⟩,
    by refine ⟨by decide, by decide, by decide, by decide⟩, ?_, ?_⟩
  · intro st i
    refine ⟨rfl, ?_⟩
    simp only [setInputMute,
      storeSyncValue_syncState _ _ _ (muteInputKey_ne_empty i),
      assocGet_assocSet_self, formatSyncValue_bit]
  · intro st o
    refine ⟨rfl, ?_⟩
    simp only [setOutputMute,
      storeSyncValue_syncState _ _ _ (muteOutputKey_ne_empty o),
      assocGet_assocSet_self, formatSyncValue_bit]

/-! ## C4: value formatting -/

/-- C4: `formatSyncValue` maps boolean true/false to `"1"`/`"0"`, any
value coercing to the finite number 0 or 1 to `"0"`/`"1"` (never
`"0.0"`/`"1.0"`), any other value coercing to a finite number to that
number rounded to one decimal and rendered with exactly one digit after
the point (so `format(-3.456) = "-3.5"`), and stringifies non-numeric
values as-is. -/
theorem formatSyncValue_spec :
    formatSyncValue (.bool true) = "1" ∧
    formatSyncValue (.bool false) = "0" ∧
    (∀ v : JSVal, jsToNumber v = some 0 → formatSyncValue v = "0") ∧
    (∀ v : JSVal, jsToNumber v = some 1 → formatSyncValue v = "1") ∧
    (∀ (v : JSVal) (q : ℚ), jsToNumber v = some q → q ≠ 0 → q ≠ 1 →
      formatSyncValue v = renderFixed1 (jsRound (q * 10))) ∧
    (∀ s : String, jsToNumber (.str s) = none → formatSyncValue (.str s) = s) ∧
    formatSyncValue (.num 0) = "0" ∧
    formatSyncValue (.num 1) = "1" ∧
    formatSyncValue (.num (-3456 / 1000)) = "-3.5" := by
  refine ⟨rfl, rfl, ?_, ?_, ?_, ?_, by decide, by decide, by decide⟩
  · intro v h
    match v with
    | .bool true => simp [jsToNumber] at h
    | .bool false => rfl
    | .num q =>
      simp only [jsToNumber, Option.some.injEq] at h
      subst h
      simp [formatSyncValue, jsToNumber]
    | .str s =>
      simp only [jsToNumber] at h
      simp [formatSyncValue, jsToNumber, h]
    | .undef => simp [jsToNumber] at h
  · intro v h
    match v with
    | .bool true => rfl
    | .bool false => simp [jsToNumber] at h
    | .num q =>
      simp only [jsToNumber, Option.some.injEq] at h
      subst h
      simp [formatSyncValue, jsToNumber]
    | .str s =>
      simp only [jsToNumber] at h
      simp [formatSyncValue, jsToNumber, h]
    | .undef => simp [jsToNumber] at h
  · intro v q h h0 h1
    match v with
    | .bool true =>
      simp only [jsToNumber, Option.some.injEq] at h
      exact absurd h.symm h1
    | .bool false =>
      simp only [jsToNumber, Option.some.injEq] at h
      exact absurd h.symm h0
    | .num q' =>
      simp only [jsToNumber, Option.some.injEq] at h
      subst h
      simp [formatSyncValue, jsToNumber, h0, h1]
    | .str s =>
      simp only [jsToNumber] at h
      simp [formatSyncValue, jsToNumber, h, h0, h1]
    | .undef => simp [jsToNumber] at h
  · intro s h
    simp only [jsToNumber] at h
    simp [formatSyncValue, jsToNumber, h, jsToStr]

/-- Witness for the hypotheses of `formatSyncValue_spec`: `"1.000"`
coerces to the finite number 1 and formats as `"1"`, and `"abc"` is
non-numeric and stringifies as-is. -/
theorem formatSyncValue_spec_witness :
    formatSyncValue (.str "1.000") = "1" ∧ formatSyncValue (.str "abc") = "abc" :=
  ⟨formatSyncValue_spec.2.2.2.1 (.str "1.000") (by decide),
   formatSyncValue_spec.2.2.2.2.2.1 "abc" (by decide)⟩

/-! ## Inbound handling lemmas -/

theorem mk_append_toList (a : String) (l : List Char) :
    String.mk (a.toList ++ l) = a ++ String.mk l := by
  apply String.toList_inj.mp
  show a.toList ++ l = (a ++ String.mk l).data
  rw [String.data_append]
  rfl

theorem oscPath_ping (dn d : String) (h : jsTrim dn = d) (hne : d ≠ "") :
    oscPath dn "/ping" = some ("/ping/" ++ d) := by
  have h1 : ("/ping" : String).toList.head? = some '/' := by decide
  simp only [oscPath, h, hne, if_neg hne, h1, if_pos]
  rw [if_neg not_false]
  congr 1

theorem handleOscMessage_store (dn : String) (st : InstState) (m : OscMessage) (id : String)
    (hvid : pathToVariableId dn m.address = some id) (hne : id ≠ "")
    (hnp : m.address ≠ "/ping")
    (hnpp : ∀ pp, oscPath dn "/ping" = some pp → m.address ≠ pp) :
    handleOscMessage dn st m =
      (storeSyncValue { st with connectionOk := true } id (argValue m.args), true) := by
  cases hping : oscPath dn "/ping" with
  | none => simp [handleOscMessage, hvid, hping, hne, hnp]
  | some pp => simp [handleOscMessage, hvid, hping, hne, hnp, hnpp pp hping]

/-! ## C9: ping echoes are skipped, everything else is stored -/

/-- C9: `handleOscMessage` returns false and leaves `syncState` and
`syncVariableDefs` untouched for an address of exactly `/ping` or
`/ping/<device name>` while still setting the connection status to ok;
every other message whose address yields a truthy variable id is stored
under that id. -/
theorem handleOscMessage_pingSkipped :
    (∀ (dn : String) (st : InstState) (args : List OscArg),
      handleOscMessage dn st ⟨"/ping", args⟩ = ({ st with connectionOk := true }, false)) ∧
    (∀ (dn d : String) (st : InstState) (args : List OscArg),
      jsTrim dn = d → d ≠ "" →
      handleOscMessage dn st ⟨"/ping/" ++ d, args⟩ =
        ({ st with connectionOk := true }, false)) ∧
    (∀ (dn : String) (st : InstState) (m : OscMessage) (id : String),
      pathToVariableId dn m.address = some id → id ≠ "" →
      m.address ≠ "/ping" →
      (∀ pp, oscPath dn "/ping" = some pp → m.address ≠ pp) →
      (handleOscMessage dn st m).2 = true ∧
      assocGet (handleOscMessage dn st m).1.syncState id =
        some (.str (formatSyncValue (argValue m.args))) ∧
      (handleOscMessage dn st m).1.connectionOk = true) := by
  refine ⟨?_, ?_, ?_⟩
  · intro dn st args
    cases hvid : pathToVariableId dn "/ping" <;> simp [handleOscMessage, hvid]
  · intro dn d st args h hne
    have hping := oscPath_ping dn d h hne
    cases hvid : pathToVariableId dn ("/ping/" ++ d) <;>
      simp [handleOscMessage, hvid, hping]
  · intro dn st m id hvid hne hnp hnpp
    rw [handleOscMessage_store dn st m id hvid hne hnp hnpp]
    refine ⟨rfl, ?_, ?_⟩
    · rw [storeSyncValue_syncState _ _ _ hne]
      exact assocGet_assocSet_self _ _ _
    · rw [storeSyncValue_connectionOk]

/-- Witness for the hypotheses of `handleOscMessage_pingSkipped`: a
`/ping/unit1` echo is dropped without touching the store, and a gain
report for the same device is stored. -/
theorem handleOscMessage_pingSkipped_witness :
    handleOscMessage "unit1" ⟨[], [], [], false⟩ ⟨"/ping/unit1", []⟩ =
      (⟨[], [], [], true⟩, false) ∧
    (handleOscMessage "unit1" ⟨[], [], [], false⟩
        ⟨"/gain/input/1/1/unit1", [.f (-2)]⟩).2 = true :=
  ⟨handleOscMessage_pingSkipped.2.1 "unit1" "unit1" ⟨[], [], [], false⟩ []
      (by decide) (by decide),
   (handleOscMessage_pingSkipped.2.2 "unit1" ⟨[], [], [], false⟩
      ⟨"/gain/input/1/1/unit1", [.f (-2)]⟩ "gain_input_1_1" (by decide) (by decide)
      (by decide)
      (fun pp hp => by
        rw [show oscPath "unit1" "/ping" = some "/ping/unit1" from by decide] at hp
        injection hp with hp
        subst hp
        decide)).1⟩

/-! ## C10: a message with no arguments stores "0" -/

/-- C10: `formatSyncValue('')` is `"0"` because the empty string
coerces to the number 0, so an inbound message with zero arguments
stores the string `"0"` under its variable id, not the empty string. -/
theorem emptyValue_storesZero :
    formatSyncValue (.str "") = "0" ∧
    jsToNumber (.str "") = some 0 ∧
    (∀ (dn : String) (st : InstState) (path id : String),
      pathToVariableId dn path = some id → id ≠ "" →
      path ≠ "/ping" →
      (∀ pp, oscPath dn "/ping" = some pp → path ≠ pp) →
      assocGet (handleOscMessage dn st ⟨path, []⟩).1.syncState id =
        some (.str "0")) := by
  refine ⟨by decide, by decide, ?_⟩
  intro dn st path id hvid hne hnp hnpp
  rw [handleOscMessage_store dn st ⟨path, []⟩ id hvid hne hnp hnpp,
    storeSyncValue_syncState _ _ _ hne]
  have : formatSyncValue (argValue ([] : List OscArg)) = "0" := by decide
  rw [this]
  exact assocGet_assocSet_self _ _ _

/-- Witness for the hypotheses of `emptyValue_storesZero`: a no-argument
gain report stores `"0"`. -/
theorem emptyValue_storesZero_witness :
    assocGet (handleOscMessage "unit1" ⟨[], [], [], false⟩
      ⟨"/gain/input/1/1/unit1", []⟩).1.syncState "gain_input_1_1" = some (.str "0") :=
  emptyValue_storesZero.2.2 "unit1" ⟨[], [], [], false⟩ "/gain/input/1/1/unit1"
    "gain_input_1_1" (by decide) (by decide) (by decide)
    (fun pp hp => by
      rw [show oscPath "unit1" "/ping" = some "/ping/unit1" from by decide] at hp
      injection hp with hp
      subst hp
      decide)

/-! ## C5: outbound path / variable-id round trip -/

theorem toList_ne_nil (s : String) (h : s ≠ "") : s.toList ≠ [] := by
  intro hc
  exact h (String.toList_inj.mp hc)

theorem dropLeadingSlash_cons_ne (c : Char) (r : List Char) (h : c ≠ '/') :
    dropLeadingSlash (c :: r) = c :: r := by
  unfold dropLeadingSlash
  split
  · rename_i heq
    injection heq with h1 _
    exact absurd h1 h
  · rfl

/-- C5: for a non-empty trimmed device name, `pathToVariableId` inverts
`oscPath` — the variable id of the outbound path is exactly the logical
path without its leading slash and with the remaining slashes replaced
by underscores; in particular
`pathToVariableId "unit1" "/gain/input/2/5/unit1" = "gain_input_2_5"`. -/
theorem oscPath_roundTrip :
    (∀ (dn p out : String), jsTrim dn ≠ "" → oscPath dn p = some out →
      pathToVariableId dn out =
        some (String.mk ((dropLeadingSlash p.toList).map slashToUnderscore))) ∧
    pathToVariableId "unit1" "/gain/input/2/5/unit1" = some "gain_input_2_5" := by
  refine ⟨?_, by decide⟩
  intro dn p out hne hout
  simp only [oscPath] at hout
  rw [if_neg hne] at hout
  set name : List Char := (jsTrim dn).toList with hname
  set b : List Char := if p.toList.head? = some '/' then p.toList else '/' :: p.toList
    with hb
  have hout' : out = String.mk (b ++ '/' :: name) := by
    injection hout with hout
    exact hout.symm
  subst hout'
  have houtNe : String.mk (b ++ '/' :: name) ≠ "" := by
    intro hc
    have hd : b ++ '/' :: name = ([] : List Char) := congrArg String.data hc
    simp at hd
  have hnameNe : name ≠ [] := toList_ne_nil _ hne
  have hcond : (!name.isEmpty && ('/' :: name).isSuffixOf
      ((String.mk (b ++ '/' :: name)).toList)) = true := by
    rw [Bool.and_eq_true]
    constructor
    · simpa [List.isEmpty_iff] using hnameNe
    · exact (List.isSuffixOf_iff_suffix).mpr (List.suffix_append b ('/' :: name))
  have hlen : (String.mk (b ++ '/' :: name)).toList.length - (name.length + 1)
      = b.length := by
    show (b ++ '/' :: name).length - (name.length + 1) = b.length
    rw [List.length_append]
    simp
  have htake : (String.mk (b ++ '/' :: name)).toList.take
      ((String.mk (b ++ '/' :: name)).toList.length - (name.length + 1)) = b := by
    rw [hlen]
    exact List.take_left b ('/' :: name)
  have hdrop : dropLeadingSlash b = dropLeadingSlash p.toList := by
    rw [hb]
    cases hp : p.toList with
    | nil => simp [dropLeadingSlash]
    | cons c r =>
      by_cases hc : c = '/'
      · subst hc
        simp
      · rw [if_neg (by simp [hc]), dropLeadingSlash_cons_ne c r hc]
        rfl
  simp only [pathToVariableId, if_neg houtNe, ← hname, hcond, if_pos, htake, hdrop]

/-- Witness for the hypotheses of `oscPath_roundTrip`: path `/gain/input/2/5`
with device name `unit1` round-trips to id `gain_input_2_5`. -/
theorem oscPath_roundTrip_witness :
    pathToVariableId "unit1" "/gain/input/2/5/unit1" =
      some (String.mk ((dropLeadingSlash ("/gain/input/2/5" : String).toList).map
        slashToUnderscore)) ∧
    String.mk ((dropLeadingSlash ("/gain/input/2/5" : String).toList).map
      slashToUnderscore) = "gain_input_2_5" :=
  ⟨oscPath_roundTrip.1 "unit1" "/gain/input/2/5" "/gain/input/2/5/unit1"
      (by decide) (by decide),
   by decide⟩

/-! ## C1: reassembly-loop behaviour on unparseable leading bytes -/

/-- C1 counterexample: on the one-byte buffer `[0x00]` — whose leading
bytes decode neither as a standard OSC frame (the oracle fails, as
`osc.readPacket` throws on it) nor as a path-only frame — one run of
the reassembly loop takes the `break` branch: the buffer is left
unchanged, so the loop does NOT remove the first byte as claimed. -/
theorem reassembly_dropsByte_cex :
    parsePathOnlyOsc [0] = none ∧
    getCompleteMessageLength (fun _ => none) (fun _ => 0) [0] = 2 ∧
    parseIterOnce (fun _ => none) (fun _ => 0) [0] = .brk :=
  ⟨by decide, by decide, by decide⟩

/-- C1 (amended): whenever the standard decode fails on the buffer and
the path-only parse fails too, one run of the reassembly loop exits via
`break` with the buffer unchanged — the loop terminates (no infinite
spin), but the unparseable leading byte is retained awaiting more data,
not dropped. -/
theorem reassembly_bothFail_breaks :
    ∀ (readPk : List ℕ → Option OscPacket) (writeLen : OscPacket → ℕ) (buffer : List ℕ),
      readPk buffer = none → parsePathOnlyOsc buffer = none →
      parseIterOnce readPk writeLen buffer = .brk := by
  intro readPk writeLen buffer h1 h2
  by_cases h4 : 4 ≤ buffer.length <;>
    simp [parseIterOnce, iterFrame, getCompleteMessageLength, h1, h2, h4,
      Nat.lt_succ_self]

/-- Witness for the hypotheses of `reassembly_bothFail_breaks` at the
concrete buffer `[0x00]` with the failing decode oracle. -/
theorem reassembly_bothFail_breaks_witness :
    parsePathOnlyOsc [0] = none ∧
    parseIterOnce (fun _ => none) (fun _ => 0) [0] = IterStep.brk :=
  ⟨by decide, reassembly_bothFail_breaks (fun _ => none) (fun _ => 0) [0] rfl (by decide)⟩

/-! ## C7: MessageByteLength -/

theorem parsePathOnlyOsc_bounds (buffer : List ℕ) (path : String) (bl : ℕ)
    (h : parsePathOnlyOsc buffer = some (path, bl)) :
    4 ≤ bl ∧ bl ≤ buffer.length := by
  simp only [parsePathOnlyOsc] at h
  split at h
  · exact absurd h (by simp)
  rename_i hlen2
  split at h
  · exact absurd h (by simp)
  split at h
  · exact absurd h (by simp)
  rename_i nullIdx hfind
  split at h
  · exact absurd h (by simp)
  split at h
  · exact absurd h (by simp)
  rename_i hreg
  split at h
  · exact absurd h (by simp)
  rename_i hble
  simp only [Option.some.injEq, Prod.mk.injEq] at h
  obtain ⟨-, hbl⟩ := h
  have hregT : pathOnlyRegexOk ((buffer.take nullIdx).map Char.ofNat) = true := by
    simpa using hreg
  have hlenOk : 2 ≤ ((buffer.take nullIdx).map Char.ofNat).length := by
    unfold pathOnlyRegexOk at hregT
    rw [Bool.and_eq_true, Bool.and_eq_true] at hregT
    exact of_decide_eq_true hregT.1.2
  rw [List.length_map, List.length_take] at hlenOk
  have hn2 : 2 ≤ nullIdx := le_trans hlenOk (min_le_left _ _)
  omega

/-- C7: the effective first-frame length computed by the reassembly
loop never fails and equals the spec's `MessageByteLength`: the
re-encoded standard-decode length, else the path-only frame length,
else `buffer.length + 1`; the hypotheses say the external codec is
sane (a successfully decoded first frame fits in the buffer and
re-decodes from its own slice). -/
theorem messageByteLength_total :
    ∀ (readPk : List ℕ → Option OscPacket) (writeLen : OscPacket → ℕ) (buffer : List ℕ),
      (∀ pk, readPk buffer = some pk → writeLen pk ≤ buffer.length) →
      (∀ pk, readPk buffer = some pk → (readPk (buffer.take (writeLen pk))).isSome = true) →
      effectiveMessageLength readPk writeLen buffer =
        messageByteLengthSpec readPk writeLen buffer := by
  intro readPk writeLen buffer h1 h2
  simp only [effectiveMessageLength, iterFrame, getCompleteMessageLength,
    messageByteLengthSpec]
  have hgt : ¬ (buffer.length + 1 ≤ buffer.length) := by omega
  cases hr : readPk buffer with
  | some pk =>
    have hle := h1 pk hr
    have hsome := h2 pk hr
    cases hp : readPk (buffer.take (writeLen pk)) with
    | none => rw [hp] at hsome; simp at hsome
    | some q => simp [hp, hle]
  | none =>
    cases hpo : parsePathOnlyOsc buffer with
    | none =>
      by_cases h4 : 4 ≤ buffer.length <;> simp [hpo, hgt, h4]
    | some pr =>
      obtain ⟨pa, bl⟩ := pr
      obtain ⟨hb4, hble⟩ := parsePathOnlyOsc_bounds buffer pa bl hpo
      have h44 : 4 ≤ buffer.length := by omega
      simp [hpo, hgt, h44]

/-- Witness for the hypotheses of `messageByteLength_total`: on the
4-byte path-only buffer `"/p\x00\x00"` with a failing standard decode,
both computations agree and give the path-only length 4. -/
theorem messageByteLength_total_witness :
    effectiveMessageLength (fun _ => none) (fun _ => 0) [0x2f, 0x70, 0, 0] =
      messageByteLengthSpec (fun _ => none) (fun _ => 0) [0x2f, 0x70, 0, 0] ∧
    messageByteLengthSpec (fun _ => none) (fun _ => 0) [0x2f, 0x70, 0, 0] = 4 :=
  ⟨messageByteLength_total (fun _ => none) (fun _ => 0) [0x2f, 0x70, 0, 0]
      (fun _ h => nomatch h) (fun _ h => nomatch h),
   by decide⟩

/-! ## C6: path-only frame recognition -/

theorem charOfNat_toNat : ∀ b : ℕ, b < 128 → (Char.ofNat b).toNat = b := by decide

theorem findIdx?_eq_some_first {α : Type} (p : α → Bool) :
    ∀ (l : List α) (n : ℕ), n < l.length →
      (∀ a, l[n]? = some a → p a = true) →
      (∀ k, k < n → ∀ a, l[k]? = some a → p a = false) →
      l.findIdx? p = some n := by
  intro l
  induction l with
  | nil => intro n hn; simp at hn
  | cons x xs ih =>
    intro n hn hp hq
    cases n with
    | zero =>
      have hx : p x = true := hp x (by simp)
      rw [List.findIdx?_cons, if_pos hx]
    | succ m =>
      have hx : p x = false := hq 0 (Nat.succ_pos m) x (by simp)
      rw [List.findIdx?_cons, if_neg (by simp [hx]), List.findIdx?_succ,
        ih m (by simpa using hn)
          (fun a ha => hp a (by simpa using ha))
          (fun k hk a ha => hq (k + 1) (by omega) a (by simpa using ha))]
      rfl

/-- C6: every buffer starting with `'/'` whose bytes before the first
NUL are a printable-ASCII address (at least one character after the
slash) and that holds at least `ceil4` of the address-plus-NUL length
is recognised as a path-only frame: `parsePathOnlyOsc` yields the
decoded address with frame length `ceil4(n + 1)`, and — when the
standard decode fails — one loop iteration dispatches the packet
`{address, args: []}` and consumes exactly that many bytes. -/
theorem pathOnlyFrame_decoded :
    ∀ (buffer : List ℕ) (n : ℕ),
      buffer.getD 0 0 = 0x2f →
      2 ≤ n → n < buffer.length →
      buffer.getD n 1 = 0 →
      (∀ k, k < n → 0x20 ≤ buffer.getD k 0 ∧ buffer.getD k 0 ≤ 0x7e) →
      ceil4 (n + 1) ≤ buffer.length →
      parsePathOnlyOsc buffer =
        some (String.mk ((buffer.take n).map Char.ofNat), ceil4 (n + 1)) ∧
      (∀ (readPk : List ℕ → Option OscPacket) (writeLen : OscPacket → ℕ),
        readPk buffer = none →
        parseIterOnce readPk writeLen buffer =
          .handled (.msg ⟨String.mk ((buffer.take n).map Char.ofNat), []⟩)
            (buffer.drop (ceil4 (n + 1)))) := by
  intro buffer n h0 hn2 hnlt hnul hprint hlen
  have hb0 : buffer[0]? = some 0x2f := by
    rw [List.getElem?_eq_getElem (by omega), ← h0, List.getD_eq_getElem _ _ (by omega)]
  have hfind : buffer.findIdx? (fun b => b == 0) = some n := by
    apply findIdx?_eq_some_first
    · exact hnlt
    · intro a ha
      rw [List.getD_eq_getElem?_getD, ha] at hnul
      simpa using hnul
    · intro k hk a ha
      obtain ⟨hlo, hhi⟩ := hprint k hk
      rw [List.getD_eq_getElem?_getD, ha] at hlo
      simp only [Option.getD_some] at hlo
      simp only [beq_eq_false_iff_ne, ne_eq]
      omega
  have hceil : ceil4 (n + 1) = n + 1 + 3 - (n + 1 + 3) % 4 := by
    unfold ceil4
    omega
  have hceil4 : 4 ≤ ceil4 (n + 1) := by
    unfold ceil4
    omega
  have htklen : ((buffer.take n).map Char.ofNat).length = n := by
    rw [List.length_map, List.length_take]
    omega
  have hregex : pathOnlyRegexOk ((buffer.take n).map Char.ofNat) = true := by
    unfold pathOnlyRegexOk
    rw [Bool.and_eq_true, Bool.and_eq_true]
    refine ⟨⟨?_, ?_⟩, ?_⟩
    · rw [List.head?_eq_getElem?, List.getElem?_map, List.getElem?_take, if_pos (by omega),
        hb0]
      simp
    · simp only [htklen]
      exact decide_eq_true hn2
    · rw [List.all_eq_true]
      intro c hc
      have hc' : c ∈ (buffer.take n).map Char.ofNat := List.mem_of_mem_tail hc
      rw [List.mem_map] at hc'
      obtain ⟨b, hb, rfl⟩ := hc'
      rw [List.mem_iff_getElem] at hb
      obtain ⟨k, hk, rfl⟩ := hb
      rw [List.length_take] at hk
      have hkn : k < n := lt_of_lt_of_le hk (min_le_left _ _)
      have hkb : k < buffer.length := by omega
      obtain ⟨hlo, hhi⟩ := hprint k hkn
      rw [List.getD_eq_getElem _ _ hkb] at hlo hhi
      rw [List.getElem_take]
      unfold printableChar
      rw [charOfNat_toNat _ (by omega), Bool.and_eq_true]
      exact ⟨decide_eq_true hlo, decide_eq_true hhi⟩
  have hparse : parsePathOnlyOsc buffer =
      some (String.mk ((buffer.take n).map Char.ofNat), ceil4 (n + 1)) := by
    simp only [parsePathOnlyOsc, hfind]
    rw [if_neg (by omega), if_neg (by rw [List.head?_eq_getElem?, hb0]; simp),
      if_neg (by omega : ¬ n < 1), if_neg (by rw [hregex]; decide),
      if_neg (by omega : ¬ n + 1 + 3 - (n + 1 + 3) % 4 > buffer.length)]
    rw [← hceil]
  refine ⟨hparse, ?_⟩
  intro readPk writeLen hrd
  have hgt : ¬ (buffer.length + 1 ≤ buffer.length) := by omega
  have h4 : 4 ≤ buffer.length := by omega
  have hnotlt : ¬ buffer.length < ceil4 (n + 1) := by omega
  simp only [parseIterOnce, iterFrame, getCompleteMessageLength, hrd, hparse]
  rw [if_neg hgt]
  simp [h4, hnotlt]

/-- Witness for the hypotheses of `pathOnlyFrame_decoded`: the spec's
example frame `"/ping/unit1\x00\x00\x00"` (NUL at index 11, padded to
12 bytes) decodes to address `/ping/unit1` with no arguments. -/
theorem pathOnlyFrame_decoded_witness :
    parsePathOnlyOsc [0x2f, 0x70, 0x69, 0x6e, 0x67, 0x2f, 0x75, 0x6e, 0x69, 0x74, 0x31,
        0, 0, 0] =
      some (String.mk ((([0x2f, 0x70, 0x69, 0x6e, 0x67, 0x2f, 0x75, 0x6e, 0x69, 0x74, 0x31,
        0, 0, 0] : List ℕ).take 11).map Char.ofNat), ceil4 12) ∧
    String.mk ((([0x2f, 0x70, 0x69, 0x6e, 0x67, 0x2f, 0x75, 0x6e, 0x69, 0x74, 0x31,
        0, 0, 0] : List ℕ).take 11).map Char.ofNat) = "/ping/unit1" ∧
    ceil4 12 = 12 :=
  ⟨(pathOnlyFrame_decoded
      [0x2f, 0x70, 0x69, 0x6e, 0x67, 0x2f, 0x75, 0x6e, 0x69, 0x74, 0x31, 0, 0, 0] 11
      (by decide) (by decide) (by decide) (by decide) (by decide) (by decide)).1,
   by decide, by decide⟩

end SynqDbt44
